import Mathlib

/-!
Formal model of the radial ODE integration engine of PCMSolver,
`src/green/InterfacesImpl.hpp` (C++ namespace `interfaces`).

Real (`double`) arithmetic is embedded as exact rational arithmetic (`ℚ`).
`std::log`, the spline interpolation routine of `MathUtils.hpp` and the
adaptive dense-output stepper of Boost.Odeint are external dependencies of
the translation unit; they enter the model as explicit function parameters
or, for the stepper, as an observation-grid integrator modelled from the
spec of the integration driver.
-/

namespace interfaces

/-- State vector for the differential equation integrator: the C++
`StateType` is a two-entry `std::vector<double>` holding the function value
and its first derivative. -/
abbrev StateType := ℚ × ℚ

/-- Dielectric profile evaluation function: maps a radius to the pair
(permittivity, derivative of the permittivity), as the C++
`ProfileEvaluator` does. -/
abbrev ProfileEvaluator := ℚ → ℚ × ℚ

/-- Holds a solution to the radial equation: the C++ `RadialSolution` is
`std::array<StateType, 3>` with index 0 the grid, index 1 the function and
index 2 the first derivative. -/
structure RadialSolution where
  grid : List ℚ
  func : List ℚ
  deriv : List ℚ
  deriving DecidableEq

/-- A `RadialSolution` with all three sequences empty, as obtained from a
freshly default-constructed `std::array` of empty vectors. -/
def emptySolution : RadialSolution := ⟨[], [], []⟩

/-- Holds parameters for the integrator (C++ `IntegratorParameters`). -/
structure IntegratorParameters where
  eps_abs_ : ℚ
  eps_rel_ : ℚ
  factor_x_ : ℚ
  factor_dxdt_ : ℚ
  r_0_ : ℚ
  r_infinity_ : ℚ
  observer_step_ : ℚ
  deriving DecidableEq

/-- The member-initializing constructor of `IntegratorParameters` from the
source: it stores the seven values verbatim and performs no validation. -/
def mkIntegratorParameters (e_abs e_rel f_x f_dxdt r0 rinf step : ℚ) :
    IntegratorParameters :=
  ⟨e_abs, e_rel, f_x, f_dxdt, r0, rinf, step⟩

/-- Modelled from the spec: a validating construction of
`IntegratorParameters` as the spec describes it, rejecting non-positive
`r_0` and `r_0 ≥ r_infinity` with a `PreconditionViolation`. The source
constructor has no such check; this definition follows the spec wording
and exists for comparison with `mkIntegratorParameters`. -/
def mkIntegratorParametersChecked (e_abs e_rel f_x f_dxdt r0 rinf step : ℚ) :
    Except String IntegratorParameters :=
  if r0 ≤ 0 then .error "PreconditionViolation"
  else if rinf ≤ r0 then .error "PreconditionViolation"
  else .ok ⟨e_abs, e_rel, f_x, f_dxdt, r0, rinf, step⟩

/-- Modelled from the spec: the fixed numerical-zero threshold used by
`numericalZero` in `MathUtils.hpp`, which is not part of this translation
unit; the spec records only that the threshold is a fixed small
magnitude. -/
def zeroTol : ℚ := 1 / 10 ^ 14

/-- Modelled from the spec: `numericalZero` of `MathUtils.hpp`, the
fixed-tolerance test for a numerically vanishing `double`; the magnitude
comparison is written as the two one-sided comparisons. -/
def numericalZero (x : ℚ) : Bool := decide (-zeroTol ≤ x ∧ x ≤ zeroTol)

/-- The system of ln-transformed first-order radial differential equations
(`LnTransformedRadial::operator()`): evaluates the dielectric profile at
`r`, throws `std::domain_error` (modelled as the `.error` branch) when the
permittivity is numerically zero, and otherwise returns the vector field
`(rho[1], -rho[1]*(rho[1] + 2/r + epsPrime/eps) + l*(l+1)/r^2)`. -/
def lnTransformedRadial (eval : ProfileEvaluator) (l : ℤ)
    (rho : StateType) (r : ℚ) : Except String StateType :=
  if numericalZero (eval r).1 then .error "Division by zero!"
  else .ok (rho.2,
    -rho.2 * (rho.2 + 2 / r + (eval r).2 / (eval r).1) +
      ((l * (l + 1) : ℤ) : ℚ) / r ^ 2)

/-- Reports progress of the differential equation integrator (`observer`):
appends the grid point, the function value and the first derivative to the
three sequences of the `RadialSolution`. -/
def observer (f : RadialSolution) (x : StateType) (r : ℚ) : RadialSolution :=
  ⟨f.grid ++ [r], f.func ++ [x.1], f.deriv ++ [x.2]⟩

/-- Reverses the contents of a `RadialSolution` (`reverse`): all three
sequences are reversed in lock-step. -/
def reverse (f : RadialSolution) : RadialSolution :=
  ⟨f.grid.reverse, f.func.reverse, f.deriv.reverse⟩

/-- One explicit advancing step of size `h` from state `s` with vector
field value `ds`; stands for the internal stepping of the external
adaptive stepper between two observation points. -/
def eulerStep (s ds : StateType) (h : ℚ) : StateType :=
  (s.1 + h * ds.1, s.2 + h * ds.2)

/-- Modelled from the spec: the observation loop of Boost.Odeint's
`integrate_adaptive` with a dense-output stepper (an external dependency,
not part of the repository). At each observation time the observer is
invoked with the current state, then the system is evaluated there; an
error raised by the system aborts the run, leaving the observations made
so far in place (the C++ exception propagates past the by-reference
`RadialSolution`). The adaptive internal stepping between observation
times is abstracted into a single evaluation of the vector field. -/
def runIntegration (sys : StateType → ℚ → Except String StateType) :
    List ℚ → StateType → RadialSolution → RadialSolution × Option String
  | [], _, f => (f, none)
  | t :: rest, s, f =>
    match sys s t with
    | .error e => (observer f s t, some e)
    | .ok ds =>
      runIntegration sys rest (eulerStep s ds ((rest.head?).getD t - t))
        (observer f s t)

/-- Number of observation times emitted when integrating from `start`
toward `stop` with observation step `dt` (of the sign of
`stop - start`). -/
def numObs (start stop dt : ℚ) : ℕ := (⌊(stop - start) / dt⌋ + 1).toNat

/-- The observation times `start, start + dt, start + 2·dt, …`, never
passing `stop`. -/
def obsTimes (start stop dt : ℚ) : List ℚ :=
  (List.range (numObs start stop dt)).map fun (k : ℕ) => start + (k : ℚ) * dt

/-- Modelled from the spec: Boost.Odeint's `integrate_adaptive` entry
point, reduced to its observable behavior — running the system over the
observation grid from `start` to `stop` with cadence `dt`, recording into
`f` through the observer. -/
def integrate_adaptive (sys : StateType → ℚ → Except String StateType)
    (s0 : StateType) (start stop dt : ℚ) (f : RadialSolution) :
    RadialSolution × Option String :=
  runIntegration sys (obsTimes start stop dt) s0 f

/-- Calculates the 1st radial solution, the one with `r^l` behavior
(`computeZeta`): starts at `r_0` from the state
`(L·log r_0, L / r_0)` and integrates forward to `r_infinity` with
observation step `observer_step_`. `log` stands for `std::log`. -/
def computeZeta (log : ℚ → ℚ) (L : ℤ) (f : RadialSolution)
    (eval : ProfileEvaluator) (params : IntegratorParameters) :
    RadialSolution × Option String :=
  integrate_adaptive (lnTransformedRadial eval L)
    ((L : ℚ) * log params.r_0_, (L : ℚ) / params.r_0_)
    params.r_0_ params.r_infinity_ params.observer_step_ f

/-- Calculates the 2nd radial solution, the one with `r^(-l-1)` behavior
(`computeOmega`): starts at `r_infinity` from the state
`(-(L+1)·log r_infinity, -(L+1) / r_infinity)`, integrates backwards
(observation step `-observer_step_`) to `r_0`, and on success reverses the
recorded sequences so that they are in ascending order; when the
integration throws, the exception propagates and the reversal never
happens. -/
def computeOmega (log : ℚ → ℚ) (L : ℤ) (f : RadialSolution)
    (eval : ProfileEvaluator) (params : IntegratorParameters) :
    RadialSolution × Option String :=
  match integrate_adaptive (lnTransformedRadial eval L)
      (((-(L + 1) : ℤ) : ℚ) * log params.r_infinity_,
        ((-(L + 1) : ℤ) : ℚ) / params.r_infinity_)
      params.r_infinity_ params.r_0_ (-params.observer_step_) f with
  | (g, some e) => (g, some e)
  | (g, none) => (reverse g, none)

/-- Value of the L-th component of the 1st radial solution at `point`
(`zeta`): at or below `lower_bound` the asymptotic form `L·log point` is
used, otherwise spline interpolation of (grid, function). `spline` stands
for `splineInterpolation` of `MathUtils.hpp` and `log` for `std::log`,
both external to this translation unit. -/
def zeta (spline : ℚ → List ℚ → List ℚ → ℚ) (log : ℚ → ℚ)
    (zeta_array : RadialSolution) (L : ℤ) (point lower_bound : ℚ) : ℚ :=
  if point ≤ lower_bound then (L : ℚ) * log point
  else spline point zeta_array.grid zeta_array.func

/-- Value of the derivative of the 1st radial solution at `point`
(`derivative_zeta`): at or below `lower_bound` the asymptotic form
`L / point` is used, otherwise spline interpolation of
(grid, derivative). -/
def derivative_zeta (spline : ℚ → List ℚ → List ℚ → ℚ)
    (zeta_array : RadialSolution) (L : ℤ) (point lower_bound : ℚ) : ℚ :=
  if point ≤ lower_bound then (L : ℚ) / point
  else spline point zeta_array.grid zeta_array.deriv

/-- Value of the L-th component of the 2nd radial solution at `point`
(`omega`): at or above `upper_bound` the asymptotic form
`-(L+1)·log point` is used, otherwise spline interpolation of
(grid, function). -/
def omega (spline : ℚ → List ℚ → List ℚ → ℚ) (log : ℚ → ℚ)
    (omega_array : RadialSolution) (L : ℤ) (point upper_bound : ℚ) : ℚ :=
  if upper_bound ≤ point then ((-(L + 1) : ℤ) : ℚ) * log point
  else spline point omega_array.grid omega_array.func

/-- Value of the derivative of the 2nd radial solution at `point`
(`derivative_omega`): at or above `upper_bound` the asymptotic form
`-(L+1) / point` is used, otherwise spline interpolation of
(grid, derivative). -/
def derivative_omega (spline : ℚ → List ℚ → List ℚ → ℚ)
    (omega_array : RadialSolution) (L : ℤ) (point upper_bound : ℚ) : ℚ :=
  if upper_bound ≤ point then ((-(L + 1) : ℤ) : ℚ) / point
  else spline point omega_array.grid omega_array.deriv

/-- Constant dielectric profile `ε ≡ 1`, `ε′ ≡ 0`, used for concrete
instantiations. -/
def constProfile : ProfileEvaluator := fun _ => (1, 0)

/-- A dielectric profile that vanishes from `r = 2` on, used for concrete
instantiations of the error behavior. -/
def vanishingProfile : ProfileEvaluator := fun r => (if 2 ≤ r then 0 else 1, 0)

/-- A placeholder logarithm for concrete instantiations; the theorems are
symbolic in the `log` parameter. -/
def log0 : ℚ → ℚ := fun _ => 0

/-- A small concrete integrator parameter set: interval `[1, 3]`,
observation step `1`. -/
def pTest : IntegratorParameters := ⟨1, 1, 1, 1, 1, 3, 1⟩

/-- A concrete `RadialSolution` with pre-existing contents, used to
instantiate statements about integration appending to a non-empty
solution. -/
def preFilled : RadialSolution := ⟨[5], [6], [7]⟩

lemma lnTransformedRadial_ok (eval : ProfileEvaluator) (l : ℤ) (rho : StateType)
    (r : ℚ) (h : numericalZero (eval r).1 = false) :
    lnTransformedRadial eval l rho r =
      .ok (rho.2, -rho.2 * (rho.2 + 2 / r + (eval r).2 / (eval r).1) +
        ((l * (l + 1) : ℤ) : ℚ) / r ^ 2) := by
  simp [lnTransformedRadial, h]

lemma lnTransformedRadial_err (eval : ProfileEvaluator) (l : ℤ) (rho : StateType)
    (r : ℚ) (h : numericalZero (eval r).1 = true) :
    lnTransformedRadial eval l rho r = .error "Division by zero!" := by
  simp [lnTransformedRadial, h]

lemma runIntegration_frame (sys : StateType → ℚ → Except String StateType) :
    ∀ (times : List ℚ) (s : StateType) (f : RadialSolution),
      runIntegration sys times s f =
        (⟨f.grid ++ (runIntegration sys times s emptySolution).1.grid,
          f.func ++ (runIntegration sys times s emptySolution).1.func,
          f.deriv ++ (runIntegration sys times s emptySolution).1.deriv⟩,
         (runIntegration sys times s emptySolution).2) := by
  intro times
  induction times with
  | nil =>
    intro s f
    simp [runIntegration, emptySolution]
  | cons t rest ih =>
    intro s f
    cases h : sys s t with
    | error e =>
      simp [runIntegration, h, observer, emptySolution]
    | ok ds =>
      simp only [runIntegration, h]
      rw [ih _ (observer f s t), ih _ (observer emptySolution s t)]
      simp [observer, emptySolution, List.append_assoc]

lemma runIntegration_none_grid (sys : StateType → ℚ → Except String StateType) :
    ∀ (times : List ℚ) (s : StateType) (f : RadialSolution),
      (runIntegration sys times s f).2 = none →
      (runIntegration sys times s f).1.grid = f.grid ++ times := by
  intro times
  induction times with
  | nil => intro s f _; simp [runIntegration]
  | cons t rest ih =>
    intro s f hnone
    cases h : sys s t with
    | error e => simp [runIntegration, h] at hnone
    | ok ds =>
      simp only [runIntegration, h] at hnone ⊢
      rw [ih _ _ hnone]
      simp [observer]

lemma runIntegration_len (sys : StateType → ℚ → Except String StateType) :
    ∀ (times : List ℚ) (s : StateType) (f : RadialSolution),
      f.func.length = f.grid.length → f.deriv.length = f.grid.length →
      (runIntegration sys times s f).1.func.length =
          (runIntegration sys times s f).1.grid.length ∧
      (runIntegration sys times s f).1.deriv.length =
          (runIntegration sys times s f).1.grid.length := by
  intro times
  induction times with
  | nil => intro s f h1 h2; simp [runIntegration, h1, h2]
  | cons t rest ih =>
    intro s f h1 h2
    cases h : sys s t with
    | error e => simp [runIntegration, h, observer, h1, h2]
    | ok ds =>
      simp only [runIntegration, h]
      exact ih _ _ (by simp [observer, h1]) (by simp [observer, h2])

lemma runIntegration_cons (sys : StateType → ℚ → Except String StateType)
    (t : ℚ) (rest : List ℚ) (s : StateType) (f : RadialSolution) :
    ∃ G V D err, runIntegration sys (t :: rest) s f =
      (⟨f.grid ++ t :: G, f.func ++ s.1 :: V, f.deriv ++ s.2 :: D⟩, err) := by
  cases h : sys s t with
  | error e =>
    exact ⟨[], [], [], some e, by simp [runIntegration, h, observer]⟩
  | ok ds =>
    refine ⟨(runIntegration sys rest (eulerStep s ds ((rest.head?).getD t - t))
        emptySolution).1.grid,
      (runIntegration sys rest (eulerStep s ds ((rest.head?).getD t - t))
        emptySolution).1.func,
      (runIntegration sys rest (eulerStep s ds ((rest.head?).getD t - t))
        emptySolution).1.deriv,
      (runIntegration sys rest (eulerStep s ds ((rest.head?).getD t - t))
        emptySolution).2, ?_⟩
    simp only [runIntegration, h]
    rw [runIntegration_frame sys rest _ (observer f s t)]
    simp [observer, List.append_assoc]

lemma runIntegration_none_of_all (eval : ProfileEvaluator) (l : ℤ) :
    ∀ (times : List ℚ) (s : StateType) (f : RadialSolution),
      (∀ t ∈ times, numericalZero (eval t).1 = false) →
      (runIntegration (lnTransformedRadial eval l) times s f).2 = none := by
  intro times
  induction times with
  | nil => intro s f _; simp [runIntegration]
  | cons t rest ih =>
    intro s f hall
    have ht := hall t (List.mem_cons_self t rest)
    simp only [runIntegration, lnTransformedRadial_ok eval l s t ht]
    exact ih _ _ fun u hu => hall u (List.mem_cons_of_mem _ hu)

lemma runIntegration_some_of_mem (eval : ProfileEvaluator) (l : ℤ) :
    ∀ (times : List ℚ) (s : StateType) (f : RadialSolution),
      (∃ t ∈ times, numericalZero (eval t).1 = true) →
      (runIntegration (lnTransformedRadial eval l) times s f).2 ≠ none := by
  intro times
  induction times with
  | nil => intro s f h; simp at h
  | cons t rest ih =>
    intro s f h
    by_cases ht : numericalZero (eval t).1 = true
    · simp [runIntegration, lnTransformedRadial_err eval l s t ht]
    · have ht' : numericalZero (eval t).1 = false := by
        cases hb : numericalZero (eval t).1
        · rfl
        · exact absurd hb ht
      simp only [runIntegration, lnTransformedRadial_ok eval l s t ht']
      apply ih
      rcases h with ⟨u, hu, hz⟩
      rcases List.mem_cons.mp hu with h1 | h2
      · exact absurd (h1 ▸ hz) ht
      · exact ⟨u, h2, hz⟩

lemma runIntegration_err_take3 (sys : StateType → ℚ → Except String StateType) :
    ∀ (times : List ℚ) (s : StateType) (f : RadialSolution),
      (runIntegration sys times s f).2 ≠ none →
      ∃ k V D, 1 ≤ k ∧ k ≤ times.length ∧ V.length = k ∧ D.length = k ∧
        (runIntegration sys times s f).1 =
          ⟨f.grid ++ times.take k, f.func ++ V, f.deriv ++ D⟩ := by
  intro times
  induction times with
  | nil => intro s f h; simp [runIntegration] at h
  | cons t rest ih =>
    intro s f herr
    cases h : sys s t with
    | error e =>
      refine ⟨1, [s.1], [s.2], le_refl 1, by simp, rfl, rfl, ?_⟩
      simp [runIntegration, h, observer]
    | ok ds =>
      simp only [runIntegration, h] at herr ⊢
      obtain ⟨k, V, D, hk1, hk2, hV, hD, hEq⟩ := ih _ _ herr
      refine ⟨k + 1, s.1 :: V, s.2 :: D, by omega, by simp; omega,
        by simp [hV], by simp [hD], ?_⟩
      rw [hEq]
      simp [observer, List.take_succ_cons, List.append_assoc]

lemma numObs_pos (start stop dt : ℚ) (h : 0 ≤ (stop - start) / dt) :
    0 < numObs start stop dt := by
  unfold numObs
  have := Int.floor_nonneg.mpr h
  omega

lemma obsTimes_length (start stop dt : ℚ) :
    (obsTimes start stop dt).length = numObs start stop dt := by
  simp [obsTimes]

lemma obsTimes_ne_nil (start stop dt : ℚ) (h : 0 ≤ (stop - start) / dt) :
    obsTimes start stop dt ≠ [] := by
  have h1 := numObs_pos start stop dt h
  intro hc
  have h2 := obsTimes_length start stop dt
  rw [hc] at h2
  simp at h2
  omega

lemma obsTimes_head (start stop dt : ℚ) (h : 0 ≤ (stop - start) / dt) :
    (obsTimes start stop dt).head? = some start := by
  have h1 := numObs_pos start stop dt h
  unfold obsTimes
  obtain ⟨n, hn⟩ : ∃ n, numObs start stop dt = n + 1 :=
    ⟨numObs start stop dt - 1, by omega⟩
  rw [hn, List.range_succ_eq_map]
  simp

lemma obsTimes_pairwise_lt (start stop dt : ℚ) (hdt : 0 < dt) :
    (obsTimes start stop dt).Pairwise (· < ·) := by
  unfold obsTimes
  rw [List.pairwise_map]
  refine (List.pairwise_lt_range _).imp ?_
  intro a b hab
  have hq : (a : ℚ) < (b : ℚ) := by exact_mod_cast hab
  nlinarith

lemma obsTimes_pairwise_gt (start stop dt : ℚ) (hdt : dt < 0) :
    (obsTimes start stop dt).Pairwise (· > ·) := by
  unfold obsTimes
  rw [List.pairwise_map]
  refine (List.pairwise_lt_range _).imp ?_
  intro a b hab
  have hq : (a : ℚ) < (b : ℚ) := by exact_mod_cast hab
  have h2 : b * dt < a * dt := by nlinarith
  have h3 : start + (b : ℚ) * dt < start + (a : ℚ) * dt := by linarith
  exact h3

lemma obsTimes_mem_bounds (start stop dt : ℚ) (hdt : 0 < dt) (hss : start ≤ stop) :
    ∀ t ∈ obsTimes start stop dt, start ≤ t ∧ t ≤ stop := by
  intro t ht
  unfold obsTimes at ht
  rw [List.mem_map] at ht
  obtain ⟨k, hk, rfl⟩ := ht
  rw [List.mem_range] at hk
  have hnum : (0 : ℚ) ≤ stop - start := by linarith
  have hdiv : (0 : ℚ) ≤ (stop - start) / dt := div_nonneg hnum hdt.le
  have hfl : 0 ≤ ⌊(stop - start) / dt⌋ := Int.floor_nonneg.mpr hdiv
  have hk' : (k : ℤ) ≤ ⌊(stop - start) / dt⌋ := by
    unfold numObs at hk
    omega
  have hkq : (k : ℚ) ≤ (stop - start) / dt := by
    calc (k : ℚ) ≤ (⌊(stop - start) / dt⌋ : ℚ) := by exact_mod_cast hk'
    _ ≤ _ := Int.floor_le _
  have hmul : (k : ℚ) * dt ≤ stop - start := by
    have h5 := mul_le_mul_of_nonneg_right hkq hdt.le
    rwa [div_mul_cancel₀ _ (ne_of_gt hdt)] at h5
  constructor
  · have h6 : 0 ≤ (k : ℚ) * dt := by positivity
    linarith
  · linarith

lemma obsTimes_mem_bounds_neg (start stop dt : ℚ) (hdt : dt < 0)
    (hss : stop ≤ start) :
    ∀ t ∈ obsTimes start stop dt, stop ≤ t ∧ t ≤ start := by
  intro t ht
  unfold obsTimes at ht
  rw [List.mem_map] at ht
  obtain ⟨k, hk, rfl⟩ := ht
  rw [List.mem_range] at hk
  have hrw : (stop - start) / dt = (start - stop) / (-dt) := by
    rw [div_neg, ← neg_div, neg_sub]
  have hdiv : (0 : ℚ) ≤ (stop - start) / dt := by
    rw [hrw]
    exact div_nonneg (by linarith) (by linarith)
  have hfl : 0 ≤ ⌊(stop - start) / dt⌋ := Int.floor_nonneg.mpr hdiv
  have hk' : (k : ℤ) ≤ ⌊(stop - start) / dt⌋ := by
    unfold numObs at hk
    omega
  have hkq : (k : ℚ) ≤ (stop - start) / dt := by
    calc (k : ℚ) ≤ (⌊(stop - start) / dt⌋ : ℚ) := by exact_mod_cast hk'
    _ ≤ _ := Int.floor_le _
  have hmul : stop - start ≤ (k : ℚ) * dt := by
    have h5 := mul_le_mul_of_nonpos_right hkq hdt.le
    rwa [div_mul_cancel₀ _ (ne_of_lt hdt)] at h5
  constructor
  · linarith
  · have h6 : (k : ℚ) * dt ≤ 0 :=
      mul_nonpos_of_nonneg_of_nonpos (by positivity) hdt.le
    linarith

lemma two_le_numObs (start stop dt : ℚ) (hdt : 0 < dt) (hstep : dt ≤ stop - start) :
    2 ≤ numObs start stop dt := by
  unfold numObs
  have h1 : (1 : ℚ) ≤ (stop - start) / dt := (one_le_div hdt).mpr hstep
  have h2 : (1 : ℤ) ≤ ⌊(stop - start) / dt⌋ := by
    rw [Int.le_floor]
    exact_mod_cast h1
  omega

lemma numObs_neg (start stop dt : ℚ) :
    numObs stop start (-dt) = numObs start stop dt := by
  unfold numObs
  have h : (start - stop) / -dt = (stop - start) / dt := by
    rw [div_neg, ← neg_div, neg_sub]
  rw [h]

lemma getLast?_rev (l : List ℚ) : l.reverse.getLast? = l.head? := by
  cases l with
  | nil => rfl
  | cons a as => simp

lemma computeOmega_none_parts (log : ℚ → ℚ) (eval : ProfileEvaluator) (L : ℤ)
    (p : IntegratorParameters) (f : RadialSolution)
    (hok : (computeOmega log L f eval p).2 = none) :
    (runIntegration (lnTransformedRadial eval L)
        (obsTimes p.r_infinity_ p.r_0_ (-p.observer_step_))
        (((-(L + 1) : ℤ) : ℚ) * log p.r_infinity_,
          ((-(L + 1) : ℤ) : ℚ) / p.r_infinity_) f).2 = none ∧
    (computeOmega log L f eval p).1 =
      reverse (runIntegration (lnTransformedRadial eval L)
        (obsTimes p.r_infinity_ p.r_0_ (-p.observer_step_))
        (((-(L + 1) : ℤ) : ℚ) * log p.r_infinity_,
          ((-(L + 1) : ℤ) : ℚ) / p.r_infinity_) f).1 := by
  cases hrun : runIntegration (lnTransformedRadial eval L)
      (obsTimes p.r_infinity_ p.r_0_ (-p.observer_step_))
      (((-(L + 1) : ℤ) : ℚ) * log p.r_infinity_,
        ((-(L + 1) : ℤ) : ℚ) / p.r_infinity_) f with
  | mk g err =>
    cases err with
    | some e =>
      simp only [computeOmega, integrate_adaptive, hrun] at hok
      exact absurd hok (by simp)
    | none =>
      constructor
      · rfl
      · simp only [computeOmega, integrate_adaptive, hrun]

lemma numericalZero_eq_false (x : ℚ) (h : zeroTol < x) :
    numericalZero x = false := by
  simp only [numericalZero, decide_eq_false_iff_not]
  rintro ⟨h1, h2⟩
  exact absurd h2 (not_le.mpr h)

lemma numericalZero_zero : numericalZero 0 = true := by
  simp only [numericalZero, decide_eq_true_eq]
  constructor
  · norm_num [zeroTol]
  · norm_num [zeroTol]

lemma constProfile_nz (t : ℚ) : numericalZero (constProfile t).1 = false := by
  apply numericalZero_eq_false
  norm_num [constProfile, zeroTol]

lemma computeZeta_none_of_all (log : ℚ → ℚ) (eval : ProfileEvaluator) (L : ℤ)
    (p : IntegratorParameters) (f : RadialSolution)
    (hall : ∀ t ∈ obsTimes p.r_0_ p.r_infinity_ p.observer_step_,
      numericalZero (eval t).1 = false) :
    (computeZeta log L f eval p).2 = none := by
  simp only [computeZeta, integrate_adaptive]
  exact runIntegration_none_of_all eval L _ _ f hall

lemma computeOmega_none_of_all (log : ℚ → ℚ) (eval : ProfileEvaluator) (L : ℤ)
    (p : IntegratorParameters) (f : RadialSolution)
    (hall : ∀ t ∈ obsTimes p.r_infinity_ p.r_0_ (-p.observer_step_),
      numericalZero (eval t).1 = false) :
    (computeOmega log L f eval p).2 = none := by
  have hnone := runIntegration_none_of_all eval L
    (obsTimes p.r_infinity_ p.r_0_ (-p.observer_step_))
    (((-(L + 1) : ℤ) : ℚ) * log p.r_infinity_,
      ((-(L + 1) : ℤ) : ℚ) / p.r_infinity_) f hall
  cases hrun : runIntegration (lnTransformedRadial eval L)
      (obsTimes p.r_infinity_ p.r_0_ (-p.observer_step_))
      (((-(L + 1) : ℤ) : ℚ) * log p.r_infinity_,
        ((-(L + 1) : ℤ) : ℚ) / p.r_infinity_) f with
  | mk g err =>
    rw [hrun] at hnone
    have herr : err = none := hnone
    subst herr
    simp only [computeOmega, integrate_adaptive, hrun]

lemma computeZeta_const_none (f : RadialSolution) :
    (computeZeta log0 0 f constProfile pTest).2 = none :=
  computeZeta_none_of_all log0 constProfile 0 pTest f fun t _ => constProfile_nz t

lemma computeOmega_const_none (f : RadialSolution) :
    (computeOmega log0 0 f constProfile pTest).2 = none :=
  computeOmega_none_of_all log0 constProfile 0 pTest f fun t _ => constProfile_nz t

lemma runIntegration_cons_ok (sys : StateType → ℚ → Except String StateType)
    (t : ℚ) (rest : List ℚ) (s ds : StateType) (f : RadialSolution)
    (h : sys s t = .ok ds) :
    runIntegration sys (t :: rest) s f =
      runIntegration sys rest (eulerStep s ds ((rest.head?).getD t - t))
        (observer f s t) := by
  simp [runIntegration, h]

lemma runIntegration_cons_err (sys : StateType → ℚ → Except String StateType)
    (t : ℚ) (rest : List ℚ) (s : StateType) (f : RadialSolution) (e : String)
    (h : sys s t = .error e) :
    runIntegration sys (t :: rest) s f = (observer f s t, some e) := by
  simp [runIntegration, h]

lemma numObs_13 : numObs 1 3 1 = 3 := by
  unfold numObs
  have h : ((3 : ℚ) - 1) / 1 = 2 := by norm_num
  rw [h]
  norm_num
  rfl

lemma obsTimes_13 : obsTimes 1 3 1 = [1, 2, 3] := by
  rw [obsTimes, numObs_13]
  have h : List.range 3 = [0, 1, 2] := by decide
  rw [h]
  simp [List.map]
  norm_num

lemma computeZeta_vanishing_eval :
    (computeZeta log0 0 emptySolution vanishingProfile pTest).2 =
      some "Division by zero!" ∧
    (computeZeta log0 0 emptySolution vanishingProfile pTest).1.grid = [1, 2] := by
  have h1 : numericalZero (vanishingProfile 1).1 = false := by
    apply numericalZero_eq_false
    norm_num [vanishingProfile, zeroTol]
  have h2 : numericalZero (vanishingProfile 2).1 = true := by
    have h : (vanishingProfile 2).1 = 0 := by norm_num [vanishingProfile]
    rw [h]
    exact numericalZero_zero
  have hz : computeZeta log0 0 emptySolution vanishingProfile pTest =
      runIntegration (lnTransformedRadial vanishingProfile 0)
        (obsTimes 1 3 1) ((0 : ℚ) * log0 1, (0 : ℚ) / 1) emptySolution := rfl
  rw [hz, obsTimes_13]
  rw [runIntegration_cons_ok _ _ _ _ _ _
    (lnTransformedRadial_ok vanishingProfile 0 _ 1 h1)]
  rw [runIntegration_cons_err _ _ _ _ _ _
    (lnTransformedRadial_err vanishingProfile 0 _ 2 h2)]
  constructor
  · rfl
  · simp [observer, emptySolution]

lemma numObs_31 : numObs 3 1 (-1) = 3 := by
  unfold numObs
  have h : ((1 : ℚ) - 3) / (-1) = 2 := by norm_num
  rw [h]
  norm_num
  rfl

lemma obsTimes_31 : obsTimes 3 1 (-1) = [3, 2, 1] := by
  rw [obsTimes, numObs_31]
  have h : List.range 3 = [0, 1, 2] := by decide
  rw [h]
  simp [List.map]
  norm_num

lemma computeOmega_err_parts (log : ℚ → ℚ) (eval : ProfileEvaluator) (L : ℤ)
    (p : IntegratorParameters) (f : RadialSolution)
    (herr : (computeOmega log L f eval p).2 ≠ none) :
    (runIntegration (lnTransformedRadial eval L)
        (obsTimes p.r_infinity_ p.r_0_ (-p.observer_step_))
        (((-(L + 1) : ℤ) : ℚ) * log p.r_infinity_,
          ((-(L + 1) : ℤ) : ℚ) / p.r_infinity_) f).2 ≠ none ∧
    (computeOmega log L f eval p).1 =
      (runIntegration (lnTransformedRadial eval L)
        (obsTimes p.r_infinity_ p.r_0_ (-p.observer_step_))
        (((-(L + 1) : ℤ) : ℚ) * log p.r_infinity_,
          ((-(L + 1) : ℤ) : ℚ) / p.r_infinity_) f).1 := by
  cases hrun : runIntegration (lnTransformedRadial eval L)
      (obsTimes p.r_infinity_ p.r_0_ (-p.observer_step_))
      (((-(L + 1) : ℤ) : ℚ) * log p.r_infinity_,
        ((-(L + 1) : ℤ) : ℚ) / p.r_infinity_) f with
  | mk g err =>
    cases err with
    | none =>
      exfalso
      apply herr
      simp only [computeOmega, integrate_adaptive, hrun]
    | some e =>
      constructor
      · simp
      · simp only [computeOmega, integrate_adaptive, hrun]

lemma computeOmega_vanishing_err :
    (computeOmega log0 0 emptySolution vanishingProfile pTest).2 ≠ none := by
  have h3 : numericalZero (vanishingProfile 3).1 = true := by
    have h : (vanishingProfile 3).1 = 0 := by norm_num [vanishingProfile]
    rw [h]
    exact numericalZero_zero
  have hrun : runIntegration (lnTransformedRadial vanishingProfile 0)
      (obsTimes pTest.r_infinity_ pTest.r_0_ (-pTest.observer_step_))
      (((-(0 + 1) : ℤ) : ℚ) * log0 pTest.r_infinity_,
        ((-(0 + 1) : ℤ) : ℚ) / pTest.r_infinity_) emptySolution =
      (observer emptySolution
        (((-(0 + 1) : ℤ) : ℚ) * log0 pTest.r_infinity_,
          ((-(0 + 1) : ℤ) : ℚ) / pTest.r_infinity_) 3, some "Division by zero!") := by
    have hob : obsTimes pTest.r_infinity_ pTest.r_0_ (-pTest.observer_step_) =
        [3, 2, 1] := obsTimes_31
    rw [hob]
    exact runIntegration_cons_err _ _ _ _ _ _
      (lnTransformedRadial_err vanishingProfile 0 _ 3 h3)
  simp only [computeOmega, integrate_adaptive, hrun]
  simp

/-- C1: the radial ODE system function, for every angular momentum L ≥ 0,
profile evaluator, state (value, derivative) and radius r > 0 at which the
profile's permittivity is not numerically zero, returns the vector field
d(value)/dr = derivative and
d(derivative)/dr = -derivative·(derivative + 2/r + ε′/ε) + L(L+1)/r²,
where (ε, ε′) is the profile evaluated at r. -/
theorem lnTransformedRadial_spec (eval : ProfileEvaluator) (L : ℤ) (hL : 0 ≤ L)
    (rho : StateType) (r : ℚ) (hr : 0 < r)
    (heps : numericalZero (eval r).1 = false) :
    lnTransformedRadial eval L rho r =
      .ok (rho.2, -rho.2 * (rho.2 + 2 / r + (eval r).2 / (eval r).1) +
        ((L * (L + 1) : ℤ) : ℚ) / r ^ 2) :=
  lnTransformedRadial_ok eval L rho r heps

/-- Witness for C1 at the constant profile, L = 0, state (0, 0), r = 1. -/
theorem lnTransformedRadial_spec_witness :
    (0 : ℤ) ≤ 0 ∧ (0 : ℚ) < 1 ∧ numericalZero (constProfile 1).1 = false ∧
    lnTransformedRadial constProfile 0 (0, 0) 1 = .ok (0, 0) := by
  refine ⟨le_refl 0, by norm_num, constProfile_nz 1, ?_⟩
  have h := lnTransformedRadial_spec constProfile 0 (le_refl 0) (0, 0) 1
    (by norm_num) (constProfile_nz 1)
  rw [h]
  norm_num [constProfile]

/-- C2: `computeZeta` starts integration at r = r₀ from the initial state
value = L·log r₀, derivative = L/r₀, integrates forward to r_∞ recording at
each observation step, and returns the recorded `RadialSolution` in
ascending grid order without any reversal. -/
theorem computeZeta_spec (log : ℚ → ℚ) (eval : ProfileEvaluator) (L : ℤ)
    (hL : 0 ≤ L) (p : IntegratorParameters) (h0 : 0 < p.r_0_)
    (h1 : p.r_0_ < p.r_infinity_) (hdt : 0 < p.observer_step_)
    (hok : (computeZeta log L emptySolution eval p).2 = none) :
    (computeZeta log L emptySolution eval p).1.grid =
        obsTimes p.r_0_ p.r_infinity_ p.observer_step_ ∧
    (computeZeta log L emptySolution eval p).1.grid.head? = some p.r_0_ ∧
    (computeZeta log L emptySolution eval p).1.func.head? =
        some ((L : ℚ) * log p.r_0_) ∧
    (computeZeta log L emptySolution eval p).1.deriv.head? =
        some ((L : ℚ) / p.r_0_) ∧
    (computeZeta log L emptySolution eval p).1.grid.Pairwise (· < ·) ∧
    ∀ t ∈ (computeZeta log L emptySolution eval p).1.grid,
      p.r_0_ ≤ t ∧ t ≤ p.r_infinity_ := by
  have hdiv : (0 : ℚ) ≤ (p.r_infinity_ - p.r_0_) / p.observer_step_ :=
    div_nonneg (by linarith) hdt.le
  simp only [computeZeta, integrate_adaptive] at hok ⊢
  have hgrid : (runIntegration (lnTransformedRadial eval L)
      (obsTimes p.r_0_ p.r_infinity_ p.observer_step_)
      ((L : ℚ) * log p.r_0_, (L : ℚ) / p.r_0_) emptySolution).1.grid =
      obsTimes p.r_0_ p.r_infinity_ p.observer_step_ := by
    rw [runIntegration_none_grid _ _ _ _ hok]
    rfl
  refine ⟨hgrid, ?_, ?_, ?_, ?_, ?_⟩
  · rw [hgrid]
    exact obsTimes_head _ _ _ hdiv
  · obtain ⟨t, rest, htr⟩ := List.exists_cons_of_ne_nil
      (obsTimes_ne_nil p.r_0_ p.r_infinity_ p.observer_step_ hdiv)
    rw [htr]
    obtain ⟨G, V, D, err, hEq⟩ := runIntegration_cons (lnTransformedRadial eval L)
      t rest ((L : ℚ) * log p.r_0_, (L : ℚ) / p.r_0_) emptySolution
    rw [hEq]
    simp [emptySolution]
  · obtain ⟨t, rest, htr⟩ := List.exists_cons_of_ne_nil
      (obsTimes_ne_nil p.r_0_ p.r_infinity_ p.observer_step_ hdiv)
    rw [htr]
    obtain ⟨G, V, D, err, hEq⟩ := runIntegration_cons (lnTransformedRadial eval L)
      t rest ((L : ℚ) * log p.r_0_, (L : ℚ) / p.r_0_) emptySolution
    rw [hEq]
    simp [emptySolution]
  · rw [hgrid]
    exact obsTimes_pairwise_lt _ _ _ hdt
  · rw [hgrid]
    exact obsTimes_mem_bounds _ _ _ hdt h1.le

/-- Witness for C2 at the constant profile over [1, 3] with step 1, L = 0. -/
theorem computeZeta_spec_witness :
    (0 : ℤ) ≤ 0 ∧ (0 : ℚ) < pTest.r_0_ ∧ pTest.r_0_ < pTest.r_infinity_ ∧
    (0 : ℚ) < pTest.observer_step_ ∧
    (computeZeta log0 0 emptySolution constProfile pTest).2 = none ∧
    ((computeZeta log0 0 emptySolution constProfile pTest).1.grid =
        obsTimes pTest.r_0_ pTest.r_infinity_ pTest.observer_step_ ∧
    (computeZeta log0 0 emptySolution constProfile pTest).1.grid.head? =
        some pTest.r_0_ ∧
    (computeZeta log0 0 emptySolution constProfile pTest).1.func.head? =
        some ((0 : ℚ) * log0 pTest.r_0_) ∧
    (computeZeta log0 0 emptySolution constProfile pTest).1.deriv.head? =
        some ((0 : ℚ) / pTest.r_0_) ∧
    (computeZeta log0 0 emptySolution constProfile pTest).1.grid.Pairwise (· < ·) ∧
    ∀ t ∈ (computeZeta log0 0 emptySolution constProfile pTest).1.grid,
      pTest.r_0_ ≤ t ∧ t ≤ pTest.r_infinity_) := by
  refine ⟨le_refl 0, by decide, by decide, by decide,
    computeZeta_const_none emptySolution, ?_⟩
  exact computeZeta_spec log0 constProfile 0 (le_refl 0) pTest
    (by decide) (by decide) (by decide) (computeZeta_const_none emptySolution)

/-- C3: `computeOmega` starts at r = r_∞ from the initial state
value = -(L+1)·log r_∞, derivative = -(L+1)/r_∞, integrates backward to r₀
with a negative observation step, and then reverses all three recorded
sequences in place so the returned `RadialSolution` has its grid in
ascending order. -/
theorem computeOmega_spec (log : ℚ → ℚ) (eval : ProfileEvaluator) (L : ℤ)
    (hL : 0 ≤ L) (p : IntegratorParameters) (h0 : 0 < p.r_0_)
    (h1 : p.r_0_ < p.r_infinity_) (hdt : 0 < p.observer_step_)
    (hok : (computeOmega log L emptySolution eval p).2 = none) :
    (computeOmega log L emptySolution eval p).1.grid =
        (obsTimes p.r_infinity_ p.r_0_ (-p.observer_step_)).reverse ∧
    (computeOmega log L emptySolution eval p).1.grid.getLast? =
        some p.r_infinity_ ∧
    (computeOmega log L emptySolution eval p).1.func.getLast? =
        some (((-(L + 1) : ℤ) : ℚ) * log p.r_infinity_) ∧
    (computeOmega log L emptySolution eval p).1.deriv.getLast? =
        some (((-(L + 1) : ℤ) : ℚ) / p.r_infinity_) ∧
    (computeOmega log L emptySolution eval p).1.grid.Pairwise (· < ·) ∧
    ∀ t ∈ (computeOmega log L emptySolution eval p).1.grid,
      p.r_0_ ≤ t ∧ t ≤ p.r_infinity_ := by
  have hneg : -p.observer_step_ < 0 := by linarith
  have hdiv : (0 : ℚ) ≤ (p.r_0_ - p.r_infinity_) / (-p.observer_step_) := by
    rw [div_neg, ← neg_div, neg_sub]
    exact div_nonneg (by linarith) hdt.le
  obtain ⟨hnone, hres⟩ := computeOmega_none_parts log eval L p emptySolution hok
  have hgrid : (runIntegration (lnTransformedRadial eval L)
      (obsTimes p.r_infinity_ p.r_0_ (-p.observer_step_))
      (((-(L + 1) : ℤ) : ℚ) * log p.r_infinity_,
        ((-(L + 1) : ℤ) : ℚ) / p.r_infinity_) emptySolution).1.grid =
      obsTimes p.r_infinity_ p.r_0_ (-p.observer_step_) := by
    rw [runIntegration_none_grid _ _ _ _ hnone]
    rfl
  obtain ⟨t, rest, htr⟩ := List.exists_cons_of_ne_nil
    (obsTimes_ne_nil p.r_infinity_ p.r_0_ (-p.observer_step_) hdiv)
  refine ⟨?_, ?_, ?_, ?_, ?_, ?_⟩
  · rw [hres, reverse, hgrid]
  · rw [hres, reverse, hgrid]
    rw [getLast?_rev]
    exact obsTimes_head _ _ _ hdiv
  · rw [hres, reverse]
    rw [htr] at hgrid ⊢
    obtain ⟨G, V, D, err, hEq⟩ := runIntegration_cons (lnTransformedRadial eval L)
      t rest (((-(L + 1) : ℤ) : ℚ) * log p.r_infinity_,
        ((-(L + 1) : ℤ) : ℚ) / p.r_infinity_) emptySolution
    rw [hEq]
    simp [emptySolution, getLast?_rev]
  · rw [hres, reverse]
    rw [htr] at hgrid ⊢
    obtain ⟨G, V, D, err, hEq⟩ := runIntegration_cons (lnTransformedRadial eval L)
      t rest (((-(L + 1) : ℤ) : ℚ) * log p.r_infinity_,
        ((-(L + 1) : ℤ) : ℚ) / p.r_infinity_) emptySolution
    rw [hEq]
    simp [emptySolution, getLast?_rev]
  · rw [hres, reverse, hgrid]
    exact List.pairwise_reverse.mpr
      (obsTimes_pairwise_gt p.r_infinity_ p.r_0_ (-p.observer_step_) hneg)
  · rw [hres, reverse, hgrid]
    intro u hu
    rw [List.mem_reverse] at hu
    exact obsTimes_mem_bounds_neg _ _ _ hneg h1.le u hu

/-- Witness for C3 at the constant profile over [1, 3] with step 1, L = 0. -/
theorem computeOmega_spec_witness :
    (0 : ℤ) ≤ 0 ∧ (0 : ℚ) < pTest.r_0_ ∧ pTest.r_0_ < pTest.r_infinity_ ∧
    (0 : ℚ) < pTest.observer_step_ ∧
    (computeOmega log0 0 emptySolution constProfile pTest).2 = none ∧
    ((computeOmega log0 0 emptySolution constProfile pTest).1.grid =
        (obsTimes pTest.r_infinity_ pTest.r_0_ (-pTest.observer_step_)).reverse ∧
    (computeOmega log0 0 emptySolution constProfile pTest).1.grid.getLast? =
        some pTest.r_infinity_ ∧
    (computeOmega log0 0 emptySolution constProfile pTest).1.func.getLast? =
        some (((-(0 + 1) : ℤ) : ℚ) * log0 pTest.r_infinity_) ∧
    (computeOmega log0 0 emptySolution constProfile pTest).1.deriv.getLast? =
        some (((-(0 + 1) : ℤ) : ℚ) / pTest.r_infinity_) ∧
    (computeOmega log0 0 emptySolution constProfile pTest).1.grid.Pairwise (· < ·) ∧
    ∀ t ∈ (computeOmega log0 0 emptySolution constProfile pTest).1.grid,
      pTest.r_0_ ≤ t ∧ t ≤ pTest.r_infinity_) := by
  refine ⟨le_refl 0, by decide, by decide, by decide,
    computeOmega_const_none emptySolution, ?_⟩
  exact computeOmega_spec log0 constProfile 0 (le_refl 0) pTest
    (by decide) (by decide) (by decide) (computeOmega_const_none emptySolution)

/-- C4: `zeta` returns L·log point if point ≤ lower_bound and the spline
interpolation of (grid, values) at point otherwise; `derivative_zeta`
returns L/point if point ≤ lower_bound, else the spline of
(grid, derivatives); `omega` returns -(L+1)·log point if
point ≥ upper_bound, else the spline of (grid, values);
`derivative_omega` returns -(L+1)/point if point ≥ upper_bound, else the
spline of (grid, derivatives). The boundary comparison is inclusive, so a
point exactly equal to the bound takes the closed-form asymptotic
branch. -/
theorem evaluator_branches (spline : ℚ → List ℚ → List ℚ → ℚ) (log : ℚ → ℚ)
    (sol : RadialSolution) (L : ℤ) (point lb ub : ℚ) :
    zeta spline log sol L point lb =
      (if point ≤ lb then (L : ℚ) * log point
       else spline point sol.grid sol.func) ∧
    derivative_zeta spline sol L point lb =
      (if point ≤ lb then (L : ℚ) / point
       else spline point sol.grid sol.deriv) ∧
    omega spline log sol L point ub =
      (if ub ≤ point then ((-(L + 1) : ℤ) : ℚ) * log point
       else spline point sol.grid sol.func) ∧
    derivative_omega spline sol L point ub =
      (if ub ≤ point then ((-(L + 1) : ℤ) : ℚ) / point
       else spline point sol.grid sol.deriv) ∧
    zeta spline log sol L lb lb = (L : ℚ) * log lb ∧
    derivative_zeta spline sol L lb lb = (L : ℚ) / lb ∧
    omega spline log sol L ub ub = ((-(L + 1) : ℤ) : ℚ) * log ub ∧
    derivative_omega spline sol L ub ub = ((-(L + 1) : ℤ) : ℚ) / ub := by
  refine ⟨rfl, rfl, rfl, rfl, ?_, ?_, ?_, ?_⟩ <;>
    simp [zeta, derivative_zeta, omega, derivative_omega]

/-- C5: evaluating the ODE system at any r fails with a DomainError exactly
when the permittivity returned by the profile at r is numerically zero;
an integration run raises a DomainError if the permittivity is numerically
zero at some point reached on the integration path, and raises no
DomainError for a profile that is strictly positive (outside the
numerical-zero tolerance) over [r₀, r_∞]. -/
theorem domainError_spec (eval : ProfileEvaluator) (L : ℤ)
    (p : IntegratorParameters) (log : ℚ → ℚ) (f : RadialSolution)
    (h0 : 0 < p.r_0_) (h1 : p.r_0_ < p.r_infinity_)
    (hdt : 0 < p.observer_step_) :
    (∀ (rho : StateType) (r : ℚ),
      (∃ e, lnTransformedRadial eval L rho r = .error e) ↔
        numericalZero (eval r).1 = true) ∧
    ((∃ t ∈ obsTimes p.r_0_ p.r_infinity_ p.observer_step_,
        numericalZero (eval t).1 = true) →
      (computeZeta log L f eval p).2 ≠ none) ∧
    ((∀ r : ℚ, p.r_0_ ≤ r → r ≤ p.r_infinity_ →
        numericalZero (eval r).1 = false) →
      (computeZeta log L f eval p).2 = none ∧
      (computeOmega log L f eval p).2 = none) := by
  refine ⟨?_, ?_, ?_⟩
  · intro rho r
    constructor
    · rintro ⟨e, he⟩
      by_contra hb
      have hb' : numericalZero (eval r).1 = false := by
        cases h : numericalZero (eval r).1
        · rfl
        · exact absurd h hb
      rw [lnTransformedRadial_ok eval L rho r hb'] at he
      exact Except.noConfusion he
    · intro h
      exact ⟨_, lnTransformedRadial_err eval L rho r h⟩
  · intro hex
    simp only [computeZeta, integrate_adaptive]
    exact runIntegration_some_of_mem eval L _ _ _ hex
  · intro hpos
    constructor
    · apply computeZeta_none_of_all
      intro t ht
      obtain ⟨hl, hr⟩ := obsTimes_mem_bounds p.r_0_ p.r_infinity_
        p.observer_step_ hdt h1.le t ht
      exact hpos t hl hr
    · apply computeOmega_none_of_all
      intro t ht
      obtain ⟨hl, hr⟩ := obsTimes_mem_bounds_neg p.r_infinity_ p.r_0_
        (-p.observer_step_) (by linarith) h1.le t ht
      exact hpos t hl hr

/-- Witness for C5 at the constant profile over [1, 3] with step 1,
L = 0. -/
theorem domainError_spec_witness :
    (0 : ℚ) < pTest.r_0_ ∧ pTest.r_0_ < pTest.r_infinity_ ∧
    (0 : ℚ) < pTest.observer_step_ ∧
    ((∀ (rho : StateType) (r : ℚ),
      (∃ e, lnTransformedRadial constProfile 0 rho r = .error e) ↔
        numericalZero (constProfile r).1 = true) ∧
    ((∃ t ∈ obsTimes pTest.r_0_ pTest.r_infinity_ pTest.observer_step_,
        numericalZero (constProfile t).1 = true) →
      (computeZeta log0 0 emptySolution constProfile pTest).2 ≠ none) ∧
    ((∀ r : ℚ, pTest.r_0_ ≤ r → r ≤ pTest.r_infinity_ →
        numericalZero (constProfile r).1 = false) →
      (computeZeta log0 0 emptySolution constProfile pTest).2 = none ∧
      (computeOmega log0 0 emptySolution constProfile pTest).2 = none)) := by
  refine ⟨by decide, by decide, by decide, ?_⟩
  exact domainError_spec constProfile 0 pTest log0 emptySolution
    (by decide) (by decide) (by decide)

/-- C6 counterexample: with a profile that vanishes from r = 2 on over the
interval [1, 3], `computeZeta` fails with a DomainError, yet the
by-reference `RadialSolution` has recorded the observations made before the
failure (grid [1, 2]), so the caller is left with recorded data on error
rather than an unchanged solution object. -/
theorem computeZeta_error_keeps_data :
    (computeZeta log0 0 emptySolution vanishingProfile pTest).2 ≠ none ∧
    (computeZeta log0 0 emptySolution vanishingProfile pTest).1.grid = [1, 2] := by
  obtain ⟨h1, h2⟩ := computeZeta_vanishing_eval
  rw [h1, h2]
  exact ⟨by simp, rfl⟩

/-- C6 amended: when `computeZeta` or `computeOmega` fails with a
DomainError, the `RadialSolution` passed by reference is not rolled back:
each of its three sequences is left holding its pre-existing contents
followed by the entries recorded at a non-empty prefix of the observation
points reached before the failure — for `computeOmega` still in the
descending recorded order, because the exception propagates before the
final reversal. -/
theorem integration_error_retains_data (log : ℚ → ℚ) (eval : ProfileEvaluator)
    (L : ℤ) (p : IntegratorParameters) (f : RadialSolution)
    (hz : (computeZeta log L f eval p).2 ≠ none)
    (hw : (computeOmega log L f eval p).2 ≠ none) :
    (∃ k V D, 1 ≤ k ∧
      k ≤ (obsTimes p.r_0_ p.r_infinity_ p.observer_step_).length ∧
      V.length = k ∧ D.length = k ∧
      (computeZeta log L f eval p).1 =
        ⟨f.grid ++ (obsTimes p.r_0_ p.r_infinity_ p.observer_step_).take k,
         f.func ++ V, f.deriv ++ D⟩) ∧
    (∃ k V D, 1 ≤ k ∧
      k ≤ (obsTimes p.r_infinity_ p.r_0_ (-p.observer_step_)).length ∧
      V.length = k ∧ D.length = k ∧
      (computeOmega log L f eval p).1 =
        ⟨f.grid ++ (obsTimes p.r_infinity_ p.r_0_ (-p.observer_step_)).take k,
         f.func ++ V, f.deriv ++ D⟩) := by
  constructor
  · simp only [computeZeta, integrate_adaptive] at hz ⊢
    exact runIntegration_err_take3 _ _ _ _ hz
  · obtain ⟨herr, hres⟩ := computeOmega_err_parts log eval L p f hw
    rw [hres]
    exact runIntegration_err_take3 _ _ _ _ herr

/-- Witness for the amended C6 at the vanishing profile over [1, 3]: both
the forward and the backward run fail, and both leave recorded data. -/
theorem integration_error_retains_data_witness :
    (computeZeta log0 0 emptySolution vanishingProfile pTest).2 ≠ none ∧
    (computeOmega log0 0 emptySolution vanishingProfile pTest).2 ≠ none ∧
    ((∃ k V D, 1 ≤ k ∧
      k ≤ (obsTimes pTest.r_0_ pTest.r_infinity_ pTest.observer_step_).length ∧
      V.length = k ∧ D.length = k ∧
      (computeZeta log0 0 emptySolution vanishingProfile pTest).1 =
        ⟨emptySolution.grid ++
          (obsTimes pTest.r_0_ pTest.r_infinity_ pTest.observer_step_).take k,
         emptySolution.func ++ V, emptySolution.deriv ++ D⟩) ∧
    (∃ k V D, 1 ≤ k ∧
      k ≤ (obsTimes pTest.r_infinity_ pTest.r_0_ (-pTest.observer_step_)).length ∧
      V.length = k ∧ D.length = k ∧
      (computeOmega log0 0 emptySolution vanishingProfile pTest).1 =
        ⟨emptySolution.grid ++
          (obsTimes pTest.r_infinity_ pTest.r_0_ (-pTest.observer_step_)).take k,
         emptySolution.func ++ V, emptySolution.deriv ++ D⟩)) := by
  have hz : (computeZeta log0 0 emptySolution vanishingProfile pTest).2 ≠ none := by
    rw [computeZeta_vanishing_eval.1]
    simp
  have hw := computeOmega_vanishing_err
  exact ⟨hz, hw, integration_error_retains_data log0 vanishingProfile 0 pTest
    emptySolution hz hw⟩

/-- C7 counterexample: at the malformed input r₀ = 2 ≥ r_∞ = 1 the source
constructor still produces a fully formed parameter object with the values
stored verbatim — construction does not fail — while the construction
modelled from the spec wording rejects the same input. -/
theorem integratorParameters_unchecked_cex :
    mkIntegratorParameters 1 1 1 1 2 1 1 =
      { eps_abs_ := 1, eps_rel_ := 1, factor_x_ := 1, factor_dxdt_ := 1,
        r_0_ := 2, r_infinity_ := 1, observer_step_ := 1 } ∧
    (mkIntegratorParameters 1 1 1 1 2 1 1).r_infinity_ ≤
      (mkIntegratorParameters 1 1 1 1 2 1 1).r_0_ ∧
    (mkIntegratorParametersChecked 1 1 1 1 2 1 1).toOption = none := by
  refine ⟨rfl, by decide, by decide⟩

/-- C7 amended: the `IntegratorParameters` constructor performs no
validation: even for malformed inputs (r₀ ≥ r_∞ or r₀ ≤ 0) it succeeds and
stores all seven values verbatim; no `PreconditionViolation` is raised at
construction time. -/
theorem integratorParameters_verbatim (e_abs e_rel f_x f_dxdt r0 rinf step : ℚ)
    (hbad : rinf ≤ r0 ∨ r0 ≤ 0) :
    (mkIntegratorParameters e_abs e_rel f_x f_dxdt r0 rinf step).eps_abs_ = e_abs ∧
    (mkIntegratorParameters e_abs e_rel f_x f_dxdt r0 rinf step).eps_rel_ = e_rel ∧
    (mkIntegratorParameters e_abs e_rel f_x f_dxdt r0 rinf step).factor_x_ = f_x ∧
    (mkIntegratorParameters e_abs e_rel f_x f_dxdt r0 rinf step).factor_dxdt_ = f_dxdt ∧
    (mkIntegratorParameters e_abs e_rel f_x f_dxdt r0 rinf step).r_0_ = r0 ∧
    (mkIntegratorParameters e_abs e_rel f_x f_dxdt r0 rinf step).r_infinity_ = rinf ∧
    (mkIntegratorParameters e_abs e_rel f_x f_dxdt r0 rinf step).observer_step_ = step :=
  ⟨rfl, rfl, rfl, rfl, rfl, rfl, rfl⟩

/-- Witness for the amended C7 at the malformed input r₀ = 2, r_∞ = 1. -/
theorem integratorParameters_verbatim_witness :
    ((1 : ℚ) ≤ 2 ∨ (2 : ℚ) ≤ 0) ∧
    ((mkIntegratorParameters 1 1 1 1 2 1 1).eps_abs_ = 1 ∧
    (mkIntegratorParameters 1 1 1 1 2 1 1).eps_rel_ = 1 ∧
    (mkIntegratorParameters 1 1 1 1 2 1 1).factor_x_ = 1 ∧
    (mkIntegratorParameters 1 1 1 1 2 1 1).factor_dxdt_ = 1 ∧
    (mkIntegratorParameters 1 1 1 1 2 1 1).r_0_ = 2 ∧
    (mkIntegratorParameters 1 1 1 1 2 1 1).r_infinity_ = 1 ∧
    (mkIntegratorParameters 1 1 1 1 2 1 1).observer_step_ = 1) :=
  ⟨Or.inl (by norm_num),
    integratorParameters_verbatim 1 1 1 1 2 1 1 (Or.inl (by norm_num))⟩

/-- C8: every `RadialSolution` returned by an integration call (forward,
and backward followed by reversal) satisfies the structural invariant: its
three sequences have identical length ≥ 2, and its grid sequence is
strictly increasing end-to-end. -/
theorem radialSolution_invariant (log : ℚ → ℚ) (eval : ProfileEvaluator)
    (L : ℤ) (p : IntegratorParameters) (h0 : 0 < p.r_0_)
    (h1 : p.r_0_ < p.r_infinity_) (hdt : 0 < p.observer_step_)
    (hstep : p.observer_step_ ≤ p.r_infinity_ - p.r_0_) :
    ((computeZeta log L emptySolution eval p).2 = none →
      (computeZeta log L emptySolution eval p).1.func.length =
          (computeZeta log L emptySolution eval p).1.grid.length ∧
      (computeZeta log L emptySolution eval p).1.deriv.length =
          (computeZeta log L emptySolution eval p).1.grid.length ∧
      2 ≤ (computeZeta log L emptySolution eval p).1.grid.length ∧
      (computeZeta log L emptySolution eval p).1.grid.Pairwise (· < ·)) ∧
    ((computeOmega log L emptySolution eval p).2 = none →
      (computeOmega log L emptySolution eval p).1.func.length =
          (computeOmega log L emptySolution eval p).1.grid.length ∧
      (computeOmega log L emptySolution eval p).1.deriv.length =
          (computeOmega log L emptySolution eval p).1.grid.length ∧
      2 ≤ (computeOmega log L emptySolution eval p).1.grid.length ∧
      (computeOmega log L emptySolution eval p).1.grid.Pairwise (· < ·)) := by
  constructor
  · intro hok
    simp only [computeZeta, integrate_adaptive] at hok ⊢
    have hlen := runIntegration_len (lnTransformedRadial eval L)
      (obsTimes p.r_0_ p.r_infinity_ p.observer_step_)
      ((L : ℚ) * log p.r_0_, (L : ℚ) / p.r_0_) emptySolution rfl rfl
    have hgrid : (runIntegration (lnTransformedRadial eval L)
        (obsTimes p.r_0_ p.r_infinity_ p.observer_step_)
        ((L : ℚ) * log p.r_0_, (L : ℚ) / p.r_0_) emptySolution).1.grid =
        obsTimes p.r_0_ p.r_infinity_ p.observer_step_ := by
      rw [runIntegration_none_grid _ _ _ _ hok]
      rfl
    refine ⟨hlen.1, hlen.2, ?_, ?_⟩
    · rw [hgrid, obsTimes_length]
      exact two_le_numObs _ _ _ hdt hstep
    · rw [hgrid]
      exact obsTimes_pairwise_lt _ _ _ hdt
  · intro hok
    obtain ⟨hnone, hres⟩ := computeOmega_none_parts log eval L p emptySolution hok
    have hlen := runIntegration_len (lnTransformedRadial eval L)
      (obsTimes p.r_infinity_ p.r_0_ (-p.observer_step_))
      (((-(L + 1) : ℤ) : ℚ) * log p.r_infinity_,
        ((-(L + 1) : ℤ) : ℚ) / p.r_infinity_) emptySolution rfl rfl
    have hgrid : (runIntegration (lnTransformedRadial eval L)
        (obsTimes p.r_infinity_ p.r_0_ (-p.observer_step_))
        (((-(L + 1) : ℤ) : ℚ) * log p.r_infinity_,
          ((-(L + 1) : ℤ) : ℚ) / p.r_infinity_) emptySolution).1.grid =
        obsTimes p.r_infinity_ p.r_0_ (-p.observer_step_) := by
      rw [runIntegration_none_grid _ _ _ _ hnone]
      rfl
    rw [hres]
    simp only [reverse, List.length_reverse]
    refine ⟨hlen.1, hlen.2, ?_, ?_⟩
    · rw [hgrid, obsTimes_length, numObs_neg]
      exact two_le_numObs _ _ _ hdt hstep
    · rw [hgrid]
      exact List.pairwise_reverse.mpr
        (obsTimes_pairwise_gt _ _ _ (by linarith))

/-- Witness for C8 at the constant profile over [1, 3] with step 1, L = 0. -/
theorem radialSolution_invariant_witness :
    (0 : ℚ) < pTest.r_0_ ∧ pTest.r_0_ < pTest.r_infinity_ ∧
    (0 : ℚ) < pTest.observer_step_ ∧
    pTest.observer_step_ ≤ pTest.r_infinity_ - pTest.r_0_ ∧
    (((computeZeta log0 0 emptySolution constProfile pTest).2 = none →
      (computeZeta log0 0 emptySolution constProfile pTest).1.func.length =
          (computeZeta log0 0 emptySolution constProfile pTest).1.grid.length ∧
      (computeZeta log0 0 emptySolution constProfile pTest).1.deriv.length =
          (computeZeta log0 0 emptySolution constProfile pTest).1.grid.length ∧
      2 ≤ (computeZeta log0 0 emptySolution constProfile pTest).1.grid.length ∧
      (computeZeta log0 0 emptySolution constProfile pTest).1.grid.Pairwise (· < ·)) ∧
    ((computeOmega log0 0 emptySolution constProfile pTest).2 = none →
      (computeOmega log0 0 emptySolution constProfile pTest).1.func.length =
          (computeOmega log0 0 emptySolution constProfile pTest).1.grid.length ∧
      (computeOmega log0 0 emptySolution constProfile pTest).1.deriv.length =
          (computeOmega log0 0 emptySolution constProfile pTest).1.grid.length ∧
      2 ≤ (computeOmega log0 0 emptySolution constProfile pTest).1.grid.length ∧
      (computeOmega log0 0 emptySolution constProfile pTest).1.grid.Pairwise (· < ·))) := by
  refine ⟨by decide, by decide, by decide, show (1 : ℚ) ≤ 3 - 1 by norm_num, ?_⟩
  exact radialSolution_invariant log0 constProfile 0 pTest
    (by decide) (by decide) (by decide) (show (1 : ℚ) ≤ 3 - 1 by norm_num)

/-- C9: applying `reverse` twice reproduces the original `RadialSolution`
exactly, element for element in all three sequences. -/
theorem reverse_reverse_id (f : RadialSolution) : reverse (reverse f) = f := by
  cases f
  simp [reverse]

/-- C10: `computeZeta` and `computeOmega` never clear the `RadialSolution`
passed to them: after a successful call the pre-existing elements of all
three sequences remain as a prefix, with the newly recorded points appended
after them (for `computeOmega`, before the final reversal). -/
theorem integration_appends (log : ℚ → ℚ) (eval : ProfileEvaluator) (L : ℤ)
    (p : IntegratorParameters) (f : RadialSolution)
    (hz : (computeZeta log L f eval p).2 = none)
    (hw : (computeOmega log L f eval p).2 = none) :
    (∃ G V D, (computeZeta log L f eval p).1 =
      ⟨f.grid ++ G, f.func ++ V, f.deriv ++ D⟩) ∧
    (∃ G V D, (computeOmega log L f eval p).1 =
      reverse ⟨f.grid ++ G, f.func ++ V, f.deriv ++ D⟩) := by
  constructor
  · simp only [computeZeta, integrate_adaptive]
    rw [runIntegration_frame (lnTransformedRadial eval L)
      (obsTimes p.r_0_ p.r_infinity_ p.observer_step_) _ f]
    exact ⟨_, _, _, rfl⟩
  · obtain ⟨hnone, hres⟩ := computeOmega_none_parts log eval L p f hw
    rw [hres]
    rw [runIntegration_frame (lnTransformedRadial eval L)
      (obsTimes p.r_infinity_ p.r_0_ (-p.observer_step_)) _ f]
    exact ⟨_, _, _, rfl⟩

/-- Witness for C10 at the constant profile over [1, 3] with a pre-filled
solution. -/
theorem integration_appends_witness :
    (computeZeta log0 0 preFilled constProfile pTest).2 = none ∧
    (computeOmega log0 0 preFilled constProfile pTest).2 = none ∧
    ((∃ G V D, (computeZeta log0 0 preFilled constProfile pTest).1 =
      ⟨preFilled.grid ++ G, preFilled.func ++ V, preFilled.deriv ++ D⟩) ∧
    (∃ G V D, (computeOmega log0 0 preFilled constProfile pTest).1 =
      reverse ⟨preFilled.grid ++ G, preFilled.func ++ V, preFilled.deriv ++ D⟩)) :=
  ⟨computeZeta_const_none preFilled, computeOmega_const_none preFilled,
    integration_appends log0 constProfile 0 pTest preFilled
      (computeZeta_const_none preFilled) (computeOmega_const_none preFilled)⟩

end interfaces
